import Mathlib

set_option maxRecDepth 8000

/-!
Verification development for the Kokoro TTS service
(`api/api.py` and `benchmark.py`).

The synthesis backend (`kokoro_onnx.Kokoro`) and the tokenizer are external
collaborators; they are modelled as an abstract environment `Env` supplying
the set of known voice names, the per-voice style embedding, the phonemizer
and the synthesis function `create`.  Audio samples and weights are modelled
as exact rationals; voice style embeddings are lists of rationals of length
`STYLE_DIM = 256` (`np.zeros(256)` in the source).

The resolution logic of `generate_full_audio` (api.py lines 77-87) and of the
producer inside `synthesize_stream` (api.py lines 108-118) is textually
identical in the source; it is embedded once as `resolve_blend` /
`resolve_line` and used by the embeddings of both endpoints.
-/

/-! ## Vector arithmetic over style embeddings -/

def STYLE_DIM : Nat := 256

def SAMPLE_RATE : Nat := 24000

/-- `np.zeros(256)` — the zero style embedding. -/
def vecZero : List ℚ := List.replicate STYLE_DIM 0

/-- Pointwise `np.add` on embeddings. -/
def vecAdd (a b : List ℚ) : List ℚ := List.zipWith (· + ·) a b

/-- Elementwise `style * weight` (numpy broadcast of a scalar). -/
def vecSmul (v : List ℚ) (w : ℚ) : List ℚ := v.map (· * w)

/-- Elementwise `style / weight` (numpy broadcast of a scalar). -/
def vecDiv (v : List ℚ) (w : ℚ) : List ℚ := v.map (· / w)

/-- Sum of a list of embeddings (used only in specification-side formulas). -/
def vsum (l : List (List ℚ)) : List ℚ := l.foldr vecAdd vecZero

/-! ## Data model (`Pydantic` request models, api.py lines 62-71) -/

structure VoiceComponent where
  voice : String
  weight : ℚ
deriving DecidableEq

structure DialogueLine where
  text : String
  voice : Option String := none
  blend_components : Option (List VoiceComponent) := none
  delay : Option ℚ := some 0
  speed : ℚ := 1
deriving DecidableEq

/-- Python truthiness of an optional string: `None` and `""` are falsy. -/
def truthyStr : Option String → Bool
  | none => false
  | some s => s != ""

/-- Python truthiness of an optional list: `None` and `[]` are falsy. -/
def truthyList {α : Type} : Option (List α) → Bool
  | none => false
  | some l => !l.isEmpty

/-- `line.delay and line.delay > 0` (api.py lines 89 and 121): `None` and
`0.0` are falsy, so the net condition is that the delay is present and
strictly positive. -/
def truthyDelay : Option ℚ → Bool
  | none => false
  | some d => decide (0 < d)

/-- `DialogueLine.check_voice_or_blend` (api.py lines 66-70): the
`mode='before'` validator passes exactly when the Python truthiness of
`voice` xor that of `blend_components` holds. -/
def check_voice_or_blend (voice : Option String)
    (blend_components : Option (List VoiceComponent)) : Bool :=
  Bool.xor (truthyStr voice) (truthyList blend_components)

/-! ## The external backend boundary -/

/-- `voice_or_style` in the source is either a voice name (`str`) or a
computed style embedding (`np.ndarray`). -/
inductive VoiceOrStyle where
  | name : String → VoiceOrStyle
  | style : List ℚ → VoiceOrStyle
deriving DecidableEq

/-- Abstract synthesis environment: `kokoro.get_voices()`,
`kokoro.get_voice_style`, `tokenizer.phonemize` and `kokoro.create`.
Phoneme sequences are modelled as strings (`not phonemes` in Python is
emptiness of the string). -/
structure Env where
  voices : List String
  get_voice_style : String → List ℚ
  phonemize : String → String
  create : String → VoiceOrStyle → ℚ → List ℚ

/-! ## Voice resolution (api.py lines 77-87 and 108-118) -/

/-- Blend resolution: `total_weight` is the sum of the weights of **all**
components, while the accumulation only adds components whose voice is
known; division by `total_weight` happens when it is positive. -/
def resolve_blend (env : Env) (comps : List VoiceComponent) : List ℚ :=
  let total_weight : ℚ := (comps.map (fun c => c.weight)).sum
  let final_style : List ℚ := comps.foldl
    (fun acc c =>
      if c.voice ∈ env.voices then
        vecAdd acc (vecSmul (env.get_voice_style c.voice) c.weight)
      else acc)
    vecZero
  if 0 < total_weight then vecDiv final_style total_weight else final_style

/-- Per-line resolution: `if line.blend_components: ... elif line.voice and
line.voice in kokoro.get_voices(): ... else voice_or_style stays None`. -/
def resolve_line (env : Env) (line : DialogueLine) : Option VoiceOrStyle :=
  if truthyList line.blend_components then
    some (VoiceOrStyle.style (resolve_blend env (line.blend_components.getD [])))
  else if truthyStr line.voice && decide ((line.voice.getD "") ∈ env.voices) then
    some (VoiceOrStyle.name (line.voice.getD ""))
  else
    none

/-- `np.zeros(int(line.delay * SAMPLE_RATE))`; for the positive delays that
reach this expression, Python `int` truncation agrees with the floor. -/
def silence (d : ℚ) : List ℚ :=
  List.replicate (Int.toNat ⌊d * (SAMPLE_RATE : ℚ)⌋) 0

/-! ## Batch path: `generate_full_audio` and `/synthesize-wav`
(api.py lines 74-95 and 141-149) -/

/-- The audio chunks one line appends to `all_samples`: nothing when the
line does not resolve; otherwise the delay silence (when the delay is
positive) followed by the synthesized samples, unless the whole line text
phonemizes to the empty sequence (`if not phonemes: continue`, which runs
after the silence was already appended). -/
def line_audio (env : Env) (line : DialogueLine) : List (List ℚ) :=
  match resolve_line env line with
  | none => []
  | some vs =>
    (if truthyDelay line.delay then [silence (line.delay.getD 0)] else []) ++
    (let phonemes := env.phonemize line.text
     if phonemes = "" then [] else [env.create phonemes vs line.speed])

/-- The `all_samples` list built by the loop of `generate_full_audio`. -/
def generate_full_audio (env : Env) : List DialogueLine → List (List ℚ)
  | [] => []
  | line :: rest => line_audio env line ++ generate_full_audio env rest

/-- `np.concatenate(all_samples) if all_samples else np.array([])`. -/
def full_audio (env : Env) (script : List DialogueLine) : List ℚ :=
  (generate_full_audio env script).flatten

/-- `np.max(np.abs(buffer))` for the buffers reaching it (all nonempty);
folding `max` from `0` agrees with the numpy maximum because the absolute
values are nonnegative. -/
def peakAbs (l : List ℚ) : ℚ := (l.map (fun x => |x|)).foldl max 0

/-- `/synthesize-wav` (api.py lines 141-149): empty audio yields an empty
artifact; otherwise the buffer is divided by its peak when that is
positive. -/
def synthesize_wav (env : Env) (script : List DialogueLine) : List ℚ :=
  let full := full_audio env script
  if full = [] then []
  else
    let max_val := peakAbs full
    if 0 < max_val then full.map (fun x => x / max_val) else full

/-! ## Segmenter (api.py lines 124-125) -/

/-- Splitting on `re.split(r'(?<=[.?!])\s*', text)`: a split point sits
immediately after every `.`, `?` or `!`, and the separator greedily consumes
the following whitespace.  The Boolean flag records "just after a sentence
end, still consuming separator whitespace". -/
def splitSentencesAux : Bool → List Char → List Char → List (List Char)
  | _, [], acc => [acc.reverse]
  | skipping, c :: rest, acc =>
    if skipping && c.isWhitespace then
      splitSentencesAux true rest acc
    else if c = '.' || c = '?' || c = '!' then
      (c :: acc).reverse :: splitSentencesAux true rest []
    else
      splitSentencesAux false rest (c :: acc)

/-- Python `str.strip()` on the character list. -/
def stripChars (cs : List Char) : List Char :=
  ((cs.dropWhile Char.isWhitespace).reverse.dropWhile Char.isWhitespace).reverse

/-- `sentences = [s.strip() for s in re.split(...) if s.strip()]`. -/
def sentences (text : String) : List String :=
  ((splitSentencesAux false text.toList []).map
      (fun cs => String.mk (stripChars cs))).filter (fun s => s != "")

/-! ## Streaming path: `/synthesize-stream` (api.py lines 103-139) -/

/-- An element of the `asyncio.Queue`: an audio chunk or the `None`
sentinel. -/
inductive StreamItem where
  | samples : List ℚ → StreamItem
  | sentinel : StreamItem
deriving DecidableEq

/-- The content chunks a resolved line contributes on the streaming path:
one synthesized chunk per sentence whose phonemization is nonempty. -/
def line_content_units (env : Env) (vs : VoiceOrStyle) (line : DialogueLine) :
    List (List ℚ) :=
  (sentences line.text).filterMap fun s =>
    let phonemes := env.phonemize s
    if phonemes = "" then none else some (env.create phonemes vs line.speed)

/-- All chunks one line contributes on the streaming path, in enqueue
order: nothing when the line does not resolve, otherwise the delay silence
(when positive) followed by the per-sentence content chunks. -/
def line_stream_block (env : Env) (line : DialogueLine) : List (List ℚ) :=
  match resolve_line env line with
  | none => []
  | some vs =>
    (if truthyDelay line.delay then [silence (line.delay.getD 0)] else []) ++
    line_content_units env vs line

/-- The sequence of items the producer task puts on the queue, ending with
the `None` sentinel (api.py lines 106-131).  The per-line body mirrors the
loop: resolve, `continue` on `None`, enqueue the delay silence, then one
chunk per sentence with nonempty phonemes. -/
def producer_items (env : Env) : List DialogueLine → List StreamItem
  | [] => [StreamItem.sentinel]
  | line :: rest =>
    (match resolve_line env line with
     | none => []
     | some vs =>
       (if truthyDelay line.delay then
          [StreamItem.samples (silence (line.delay.getD 0))]
        else []) ++
       ((sentences line.text).filterMap fun s =>
          let phonemes := env.phonemize s
          if phonemes = "" then none
          else some (StreamItem.samples (env.create phonemes vs line.speed))))
    ++ producer_items env rest

/-- The consumer loop of `stream_generator` (api.py lines 132-137): yield
chunks from the FIFO queue until the sentinel is observed.  The
single-producer/single-consumer FIFO queue is collapsed to the list of
items in enqueue order. -/
def consumer_output : List StreamItem → List (List ℚ)
  | [] => []
  | StreamItem.sentinel :: _ => []
  | StreamItem.samples s :: rest => s :: consumer_output rest

/-- Number of `kokoro.create` calls the producer performs for one line. -/
def line_create_calls (env : Env) (line : DialogueLine) : Nat :=
  match resolve_line env line with
  | none => 0
  | some _ => ((sentences line.text).filter (fun s => env.phonemize s != "")).length

/-- Number of `kokoro.create` calls the producer performs for a script.
`stream_generator` starts the producer with `asyncio.create_task` and keeps
no handle to it, and nothing ever cancels it, so the calls the producer
performs do not depend on the consumer or on the client connection
(whenever the total number of chunks is within the queue capacity of 20,
the producer runs to completion unconditionally). -/
def producer_calls (env : Env) (script : List DialogueLine) : Nat :=
  (script.map (line_create_calls env)).sum

/-! ## Request validation pipeline (FastAPI parses and validates the
request body before an endpoint runs) -/

/-- A raw request line, before validation; defaults as in the Pydantic
model. -/
structure RawLine where
  text : String
  voice : Option String := none
  blend_components : Option (List VoiceComponent) := none
  delay : Option ℚ := some 0
  speed : ℚ := 1
deriving DecidableEq

/-- Pydantic validation of one line: the `mode='before'` validator
`check_voice_or_blend` runs first, then the field constraints
(`weight` in `[0,1]`, `speed` in `[0.25, 2.0]`). -/
def parse_line (r : RawLine) : Except String DialogueLine :=
  if !check_voice_or_blend r.voice r.blend_components then
    Except.error "Each line must have voice or blend_components, not both."
  else if !((r.blend_components.getD []).all
      (fun c => decide (0 ≤ c.weight ∧ c.weight ≤ 1))) then
    Except.error "weight out of range"
  else if !(decide ((1/4 : ℚ) ≤ r.speed ∧ r.speed ≤ 2)) then
    Except.error "speed out of range"
  else
    Except.ok ⟨r.text, r.voice, r.blend_components, r.delay, r.speed⟩

/-- Validation of the whole request body; fails on the first offending
line, before any synthesis work. -/
def parse_request (raw : List RawLine) : Except String (List DialogueLine) :=
  raw.mapM parse_line

/-- The `/synthesize-wav` endpoint including request validation: the
backend `env` is consulted only after validation succeeded. -/
def synthesize_wav_endpoint (env : Env) (raw : List RawLine) :
    Except String (List ℚ) :=
  (parse_request raw).map (synthesize_wav env)

/-! ## Specification-side blend formulas (for claim C1) -/

/-- The blend formula exactly as the specification words it: components
with unknown voices are dropped from numerator **and** denominator, and a
zero applied-weight sum yields the zero vector. -/
def resolve_blend_claimed (env : Env) (comps : List VoiceComponent) : List ℚ :=
  let known := comps.filter (fun c => decide (c.voice ∈ env.voices))
  let num := vsum (known.map (fun c => vecSmul (env.get_voice_style c.voice) c.weight))
  let applied_weight : ℚ := (known.map (fun c => c.weight)).sum
  if 0 < applied_weight then vecDiv num applied_weight else vecZero

/-- The amended blend formula: the numerator sums over known-voice
components only, but the denominator is the weight sum of **all**
components; no division when that total is not positive. -/
def resolve_blend_amended (env : Env) (comps : List VoiceComponent) : List ℚ :=
  let known := comps.filter (fun c => decide (c.voice ∈ env.voices))
  let num := vsum (known.map (fun c => vecSmul (env.get_voice_style c.voice) c.weight))
  let total_weight : ℚ := (comps.map (fun c => c.weight)).sum
  if 0 < total_weight then vecDiv num total_weight else num

/-! ## Benchmark engine (`benchmark.py`) -/

/-- One entry of the `results` list built by the benchmark loop. -/
structure BenchResult where
  name : String
  size : ℚ
  load_time : ℚ
  infer_time : ℚ
  duration : ℚ
  rtf : ℚ
  mem_usage : ℚ
deriving DecidableEq

/-- Containment of one character list in another, by scanning every
suffix. -/
def infixOfList (pat : List Char) : List Char → Bool
  | [] => pat.isEmpty
  | c :: rest => List.isPrefixOf pat (c :: rest) || infixOfList pat rest

/-- Substring containment, Python `pat in s`. -/
def strContains (s pat : String) : Bool := infixOfList pat.toList s.toList

/-- Python `s.endswith(pat)`. -/
def strEndsWith (s pat : String) : Bool := List.isSuffixOf pat.toList s.toList

/-- Python `min(results, key=lambda x: x['rtf'])`: the first element with
the minimal key (ties keep the earlier element). -/
def pymin_rtf : List BenchResult → Option BenchResult
  | [] => none
  | x :: xs => some (xs.foldl (fun best y => if y.rtf < best.rtf then y else best) x)

/-- The generator predicate selecting `highest_quality` in
`print_recommendations`: name ends in `.onnx` and contains neither `fp`
nor `int`. -/
def is_highest_quality_name (n : String) : Bool :=
  strEndsWith n ".onnx" && !strContains n "fp" && !strContains n "int"

/-- The three recommendations computed by `print_recommendations`. -/
structure Recommendations where
  fastest : BenchResult
  highest_quality : Option BenchResult
  best_balanced : BenchResult
deriving DecidableEq

/-- `print_recommendations` (benchmark.py lines 37-46): `None` on an empty
result list (`if not results: return`); otherwise `fastest_inference` is
the `min` by rtf, `highest_quality` the first full-precision-named result
(possibly absent), and `best_balanced` the first result named
`...fp16.onnx`, defaulting to `fastest_inference`. -/
def print_recommendations (results : List BenchResult) : Option Recommendations :=
  match pymin_rtf results with
  | none => none
  | some fastest =>
    some ⟨fastest,
          results.find? (fun r => is_highest_quality_name r.name),
          (results.find? (fun r => strEndsWith r.name "fp16.onnx")).getD fastest⟩

/-- The candidate artifacts of `MODELS_TO_BENCHMARK`, in declaration
order, with their precision tags. -/
def FULL_PRECISION_NAME : String := "kokoro-v1.0.onnx"

def HALF_PRECISION_NAME : String := "kokoro-v1.0.fp16.onnx"

def QUANTIZED_NAME : String := "kokoro-v1.0.int8.onnx"

def candidate_names : List String :=
  [FULL_PRECISION_NAME, HALF_PRECISION_NAME, QUANTIZED_NAME]

/-! ## Demonstration environments and inputs used by concrete theorems -/

/-- A small backend: one known voice, all style embeddings the constant-one
vector, the identity phonemizer, and synthesis returning a fixed chunk. -/
def envDemo : Env :=
  ⟨["af_sky"], fun _ => List.replicate STYLE_DIM 1, fun s => s, fun _ _ _ => [1]⟩

/-- A line whose voice is unknown to the backend and whose delay is one
second. -/
def lineUnknownVoice : DialogueLine := ⟨"Hi.", some "bad_voice", none, some 1, 1⟩

/-! ## General list and vector lemmas -/

theorem zipWith_add_replicate_right (a : List ℚ) (n : Nat) (h : a.length ≤ n) :
    List.zipWith (· + ·) a (List.replicate n (0 : ℚ)) = a := by
  induction a generalizing n with
  | nil => simp
  | cons x xs ih =>
    cases n with
    | zero => simp at h
    | succ m =>
      simp only [List.replicate_succ, List.zipWith_cons_cons, add_zero]
      exact congrArg (x :: ·) (ih m (by simpa using h))

theorem zipWith_add_replicate_left (a : List ℚ) (n : Nat) (h : a.length ≤ n) :
    List.zipWith (· + ·) (List.replicate n (0 : ℚ)) a = a := by
  induction a generalizing n with
  | nil => simp
  | cons x xs ih =>
    cases n with
    | zero => simp at h
    | succ m =>
      simp only [List.replicate_succ, List.zipWith_cons_cons, zero_add]
      exact congrArg (x :: ·) (ih m (by simpa using h))

theorem vecAdd_vecZero_right (a : List ℚ) (h : a.length ≤ STYLE_DIM) :
    vecAdd a vecZero = a :=
  zipWith_add_replicate_right a STYLE_DIM h

theorem vecAdd_vecZero_left (a : List ℚ) (h : a.length ≤ STYLE_DIM) :
    vecAdd vecZero a = a :=
  zipWith_add_replicate_left a STYLE_DIM h

theorem vecAdd_assoc (a b c : List ℚ) :
    vecAdd (vecAdd a b) c = vecAdd a (vecAdd b c) := by
  induction a generalizing b c with
  | nil => simp [vecAdd]
  | cons x xs ih =>
    cases b with
    | nil => simp [vecAdd]
    | cons y ys =>
      cases c with
      | nil => simp [vecAdd]
      | cons z zs =>
        simp only [vecAdd, List.zipWith_cons_cons, add_assoc]
        exact congrArg ((x + (y + z)) :: ·) (ih ys zs)

theorem vecAdd_length (a b : List ℚ) :
    (vecAdd a b).length = min a.length b.length := by
  simp [vecAdd]

theorem vecSmul_length (v : List ℚ) (w : ℚ) : (vecSmul v w).length = v.length := by
  simp [vecSmul]

theorem vecZero_length : vecZero.length = STYLE_DIM := by
  simp [vecZero]

theorem vsum_nil : vsum [] = vecZero := rfl

theorem vsum_cons (v : List ℚ) (l : List (List ℚ)) :
    vsum (v :: l) = vecAdd v (vsum l) := rfl

theorem vsum_length (l : List (List ℚ)) (h : ∀ v ∈ l, v.length = STYLE_DIM) :
    (vsum l).length = STYLE_DIM := by
  induction l with
  | nil => simpa [vsum_nil] using vecZero_length
  | cons v vs ih =>
    rw [vsum_cons, vecAdd_length, h v (by simp),
      ih (fun w hw => h w (by simp [hw]))]
    simp

theorem vecSmul_zero (v : List ℚ) : vecSmul v 0 = List.replicate v.length 0 := by
  simp [vecSmul]

theorem vecDiv_vecZero (t : ℚ) : vecDiv vecZero t = vecZero := by
  simp [vecDiv, vecZero, List.map_replicate, zero_div]

theorem zipWith_replicate_same (f : ℚ → ℚ → ℚ) (n : Nat) (a b : ℚ) :
    List.zipWith f (List.replicate n a) (List.replicate n b)
      = List.replicate n (f a b) := by
  induction n with
  | zero => rfl
  | succ m ih => simp [List.replicate_succ, ih]

theorem replicate_inj_of_pos {n : Nat} {a b : ℚ} (hn : n ≠ 0)
    (h : List.replicate n a = List.replicate n b) : a = b := by
  cases n with
  | zero => exact absurd rfl hn
  | succ m =>
    rw [List.replicate_succ, List.replicate_succ] at h
    exact (List.cons_eq_cons.mp h).1

theorem sum_eq_zero_all_zero (l : List ℚ) (h0 : ∀ x ∈ l, 0 ≤ x)
    (hs : l.sum = 0) : ∀ x ∈ l, x = 0 := by
  induction l with
  | nil => simp
  | cons x xs ih =>
    intro y hy
    have hx : 0 ≤ x := h0 x (by simp)
    have hxs : 0 ≤ xs.sum := List.sum_nonneg (fun z hz => h0 z (by simp [hz]))
    rw [List.sum_cons] at hs
    have hx0 : x = 0 := by linarith
    have hs0 : xs.sum = 0 := by linarith
    rcases List.mem_cons.mp hy with rfl | hmem
    · exact hx0
    · exact ih (fun z hz => h0 z (by simp [hz])) hs0 y hmem

/-! ## The blend accumulation loop as a filtered sum -/

theorem resolve_fold_eq (env : Env) (comps : List VoiceComponent) (acc : List ℚ)
    (hlen : ∀ v, (env.get_voice_style v).length = STYLE_DIM)
    (hacc : acc.length = STYLE_DIM) :
    comps.foldl
      (fun acc c =>
        if c.voice ∈ env.voices then
          vecAdd acc (vecSmul (env.get_voice_style c.voice) c.weight)
        else acc)
      acc
    = vecAdd acc
        (vsum ((comps.filter (fun c => decide (c.voice ∈ env.voices))).map
          (fun c => vecSmul (env.get_voice_style c.voice) c.weight))) := by
  induction comps generalizing acc with
  | nil =>
    simp only [List.foldl_nil, List.filter_nil, List.map_nil, vsum_nil]
    exact (vecAdd_vecZero_right acc (le_of_eq hacc)).symm
  | cons c cs ih =>
    by_cases hc : c.voice ∈ env.voices
    · have hlen2 :
          (vecAdd acc (vecSmul (env.get_voice_style c.voice) c.weight)).length
            = STYLE_DIM := by
        rw [vecAdd_length, vecSmul_length, hacc, hlen]
        simp
      have hc' : decide (c.voice ∈ env.voices) = true := decide_eq_true hc
      simp only [List.foldl_cons, if_pos hc, List.filter_cons, hc',
        eq_self_iff_true, if_true, List.map_cons, vsum_cons]
      rw [ih _ hlen2, vecAdd_assoc]
    · have hc' : decide (c.voice ∈ env.voices) = false :=
        decide_eq_false hc
      simp only [List.foldl_cons, if_neg hc, List.filter_cons, hc',
        Bool.false_eq_true, if_false]
      exact ih acc hacc

theorem resolve_blend_eq_amended (env : Env) (comps : List VoiceComponent)
    (hlen : ∀ v, (env.get_voice_style v).length = STYLE_DIM) :
    resolve_blend env comps = resolve_blend_amended env comps := by
  unfold resolve_blend resolve_blend_amended
  rw [resolve_fold_eq env comps vecZero hlen vecZero_length]
  rw [vecAdd_vecZero_left _ (le_of_eq (vsum_length _ ?hmem))]
  case hmem =>
    intro v hv
    simp only [List.mem_map] at hv
    obtain ⟨c, _, rfl⟩ := hv
    rw [vecSmul_length, hlen]

/-! ## Peak normalization lemmas -/

theorem div_max_eq (a b m : ℚ) (hm : 0 < m) :
    max (a / m) (b / m) = max a b / m := by
  rcases le_total a b with h | h
  · rw [max_eq_right h, max_eq_right ((div_le_div_iff_of_pos_right hm).mpr h)]
  · rw [max_eq_left h, max_eq_left ((div_le_div_iff_of_pos_right hm).mpr h)]

theorem foldl_max_div (l : List ℚ) (a m : ℚ) (hm : 0 < m) :
    (l.map (fun x => x / m)).foldl max (a / m) = l.foldl max a / m := by
  induction l generalizing a with
  | nil => rfl
  | cons x xs ih =>
    simp only [List.map_cons, List.foldl_cons]
    rw [div_max_eq a x m hm, ih (max a x)]

theorem map_abs_div (l : List ℚ) (m : ℚ) (hm : 0 < m) :
    (l.map (fun x => x / m)).map (fun x => |x|)
      = (l.map (fun x => |x|)).map (fun x => x / m) := by
  induction l with
  | nil => rfl
  | cons x xs ih =>
    simp only [List.map_cons, ih, List.cons.injEq, and_true]
    rw [abs_div, abs_of_pos hm]

theorem peakAbs_map_div (l : List ℚ) (m : ℚ) (hm : 0 < m) :
    peakAbs (l.map (fun x => x / m)) = peakAbs l / m := by
  unfold peakAbs
  rw [map_abs_div l m hm]
  have h0 : (0 : ℚ) = 0 / m := (zero_div m).symm
  calc ((l.map (fun x => |x|)).map (fun x => x / m)).foldl max 0
      = ((l.map (fun x => |x|)).map (fun x => x / m)).foldl max (0 / m) := by
        rw [← h0]
    _ = (l.map (fun x => |x|)).foldl max 0 / m :=
        foldl_max_div (l.map (fun x => |x|)) 0 m hm

/-! ## Streaming pipeline lemmas -/

theorem producer_items_cons (env : Env) (line : DialogueLine)
    (rest : List DialogueLine) :
    producer_items env (line :: rest)
      = (line_stream_block env line).map StreamItem.samples
        ++ producer_items env rest := by
  simp only [producer_items, line_stream_block]
  cases h : resolve_line env line with
  | none => simp
  | some vs =>
    simp only [List.map_append, line_content_units, List.map_filterMap]
    congr 2
    · split <;> simp
    · apply List.filterMap_congr
      intro s _
      by_cases hp : env.phonemize s = "" <;> simp [hp]

theorem consumer_output_map_samples (l : List (List ℚ)) (items : List StreamItem) :
    consumer_output (l.map StreamItem.samples ++ items)
      = l ++ consumer_output items := by
  induction l with
  | nil => rfl
  | cons x xs ih => simp [consumer_output, ih]

theorem producer_items_ne_nil (env : Env) (script : List DialogueLine) :
    producer_items env script ≠ [] := by
  induction script with
  | nil => simp [producer_items]
  | cons line rest ih =>
    rw [producer_items_cons]
    intro h
    rcases List.append_eq_nil.mp h with ⟨-, h2⟩
    exact ih h2

theorem producer_items_getLast (env : Env) (script : List DialogueLine) :
    (producer_items env script).getLast? = some StreamItem.sentinel := by
  induction script with
  | nil => rfl
  | cons line rest ih =>
    rw [producer_items_cons,
      List.getLast?_append_of_ne_nil _ (producer_items_ne_nil env rest), ih]

/-! ## Content-unit and batch decomposition lemmas -/

theorem filterMap_phoneme (env : Env) (vs : VoiceOrStyle) (sp : ℚ)
    (l : List String) :
    (l.filterMap fun s =>
        let phonemes := env.phonemize s
        if phonemes = "" then none else some (env.create phonemes vs sp))
      = (l.filter (fun s => env.phonemize s != "")).map
          (fun s => env.create (env.phonemize s) vs sp) := by
  induction l with
  | nil => rfl
  | cons s ss ih =>
    by_cases hp : env.phonemize s = ""
    · simp [List.filterMap_cons, List.filter_cons, hp, ih]
    · simp [List.filterMap_cons, List.filter_cons, hp, ih]

theorem generate_full_audio_eq_flatten (env : Env) (script : List DialogueLine) :
    generate_full_audio env script = (script.map (line_audio env)).flatten := by
  induction script with
  | nil => rfl
  | cons line rest ih => simp [generate_full_audio, ih]

/-! ## Benchmark selection lemmas -/

theorem pymin_fold_spec (xs : List BenchResult) (x : BenchResult) :
    ∃ l₁ l₂,
      x :: xs
        = l₁ ++ (xs.foldl (fun best y => if y.rtf < best.rtf then y else best) x) :: l₂
      ∧ (∀ s ∈ x :: xs,
          (xs.foldl (fun best y => if y.rtf < best.rtf then y else best) x).rtf ≤ s.rtf)
      ∧ (∀ s ∈ l₁,
          (xs.foldl (fun best y => if y.rtf < best.rtf then y else best) x).rtf < s.rtf) := by
  induction xs generalizing x with
  | nil => exact ⟨[], [], by simp, by simp, by simp⟩
  | cons y ys ih =>
    by_cases h : y.rtf < x.rtf
    · obtain ⟨l₁, l₂, hdec, hmin, hstrict⟩ := ih y
      refine ⟨x :: l₁, l₂, ?_, ?_, ?_⟩
      · simp only [List.foldl_cons, if_pos h]
        rw [List.cons_append]
        exact congrArg (x :: ·) hdec
      · intro s hs
        simp only [List.foldl_cons, if_pos h]
        rcases List.mem_cons.mp hs with rfl | hs2
        · exact le_of_lt (lt_of_le_of_lt (hmin y (by simp)) h)
        · exact hmin s hs2
      · intro s hs
        simp only [List.foldl_cons, if_pos h]
        rcases List.mem_cons.mp hs with rfl | hs2
        · exact lt_of_le_of_lt (hmin y (by simp)) h
        · exact hstrict s hs2
    · have hxy : x.rtf ≤ y.rtf := le_of_not_lt h
      obtain ⟨l₁, l₂, hdec, hmin, hstrict⟩ := ih x
      cases l₁ with
      | nil =>
        have hx :
            x = ys.foldl (fun best y => if y.rtf < best.rtf then y else best) x ∧
              ys = l₂ := by
          simpa using hdec
        refine ⟨[], y :: l₂, ?_, ?_, by simp⟩
        · simp only [List.foldl_cons, if_neg h, List.nil_append]
          rw [← hx.1, hx.2]
        · intro s hs
          simp only [List.foldl_cons, if_neg h]
          rcases List.mem_cons.mp hs with rfl | hs2
          · exact hmin s (by simp)
          · rcases List.mem_cons.mp hs2 with rfl | hs3
            · exact le_trans (hmin x (by simp)) hxy
            · exact hmin s (by simp [hs3])
      | cons a l₁' =>
        have hx : x = a ∧ ys = l₁' ++
            (ys.foldl (fun best y => if y.rtf < best.rtf then y else best) x) :: l₂ := by
          simpa using hdec
        refine ⟨x :: y :: l₁', l₂, ?_, ?_, ?_⟩
        · simp only [List.foldl_cons, if_neg h, List.cons_append]
          exact congrArg (x :: ·) (congrArg (y :: ·) hx.2)
        · intro s hs
          simp only [List.foldl_cons, if_neg h]
          rcases List.mem_cons.mp hs with rfl | hs2
          · exact hmin s (by simp)
          · rcases List.mem_cons.mp hs2 with rfl | hs3
            · exact le_trans (hmin x (by simp)) hxy
            · exact hmin s (by simp [hs3])
        · intro s hs
          simp only [List.foldl_cons, if_neg h]
          have hax : (ys.foldl (fun best y => if y.rtf < best.rtf then y else best) x).rtf
              < x.rtf := by
            have := hstrict a (by simp)
            rwa [← hx.1] at this
          rcases List.mem_cons.mp hs with rfl | hs2
          · exact hax
          · rcases List.mem_cons.mp hs2 with rfl | hs3
            · exact lt_of_lt_of_le hax hxy
            · exact hstrict s (by simp [hs3])

theorem find_congr {α : Type} (p q : α → Bool) (l : List α)
    (h : ∀ a ∈ l, p a = q a) : l.find? p = l.find? q := by
  induction l with
  | nil => rfl
  | cons a as ih =>
    by_cases hp : p a = true
    · rw [List.find?_cons_of_pos _ hp,
        List.find?_cons_of_pos _ (by rw [← h a (by simp)]; exact hp)]
    · rw [List.find?_cons_of_neg _ (by simpa using hp),
        List.find?_cons_of_neg _ (by rw [← h a (by simp)]; simpa using hp)]
      exact ih (fun b hb => h b (by simp [hb]))

theorem hq_name_iff (n : String) (h : n ∈ candidate_names) :
    is_highest_quality_name n = (n == FULL_PRECISION_NAME) := by
  simp only [candidate_names, List.mem_cons, List.not_mem_nil, or_false] at h
  rcases h with rfl | rfl | rfl <;> decide

theorem fp16_name_iff (n : String) (h : n ∈ candidate_names) :
    strEndsWith n "fp16.onnx" = (n == HALF_PRECISION_NAME) := by
  simp only [candidate_names, List.mem_cons, List.not_mem_nil, or_false] at h
  rcases h with rfl | rfl | rfl <;> decide

/-! ## Claim theorems -/

/-- C5: for every submitted line, validation fails when neither voice nor
blend is set and when both are set, and passes when exactly one is set
(a set value being a meaningful one: a nonempty voice name or a nonempty
component list); a request failing validation is rejected with the
validation error before any backend work — the endpoint result is the same
error for every backend. -/
theorem C5_exactly_one_voice_validation (v : String) (bs : List VoiceComponent)
    (raw : List RawLine) (e : String) :
    check_voice_or_blend none none = false
    ∧ (v ≠ "" → bs ≠ [] → check_voice_or_blend (some v) (some bs) = false)
    ∧ (v ≠ "" → check_voice_or_blend (some v) none = true)
    ∧ (bs ≠ [] → check_voice_or_blend none (some bs) = true)
    ∧ (parse_request raw = Except.error e →
        (∀ env env' : Env,
          synthesize_wav_endpoint env raw = synthesize_wav_endpoint env' raw)
        ∧ ∀ env : Env, synthesize_wav_endpoint env raw = Except.error e) := by
  refine ⟨rfl, ?_, ?_, ?_, ?_⟩
  · intro hv hbs
    have hv' : (v != "") = true := by simpa [bne_iff_ne] using hv
    have hbs' : bs.isEmpty = false := by simpa using hbs
    simp [check_voice_or_blend, truthyStr, truthyList, hv', hbs']
  · intro hv
    have hv' : (v != "") = true := by simpa [bne_iff_ne] using hv
    simp [check_voice_or_blend, truthyStr, truthyList, hv']
  · intro hbs
    have hbs' : bs.isEmpty = false := by simpa using hbs
    simp [check_voice_or_blend, truthyStr, truthyList, hbs']
  · intro h
    constructor
    · intro env env'
      unfold synthesize_wav_endpoint
      rw [h]
      rfl
    · intro env
      unfold synthesize_wav_endpoint
      rw [h]
      rfl

/-- C5 witness: a line with only a (nonempty) voice passes the check, one
with both voice and blend fails, and a request whose single line has
neither is rejected by validation with the same error for two different
backends. -/
theorem C5_exactly_one_voice_validation_witness :
    check_voice_or_blend (some "af_sky") none = true
    ∧ check_voice_or_blend (some "af_sky") (some [⟨"am_adam", 1⟩]) = false
    ∧ synthesize_wav_endpoint envDemo [⟨"Hi.", none, none, some 0, 1⟩]
        = Except.error "Each line must have voice or blend_components, not both."
    ∧ synthesize_wav_endpoint envDemo [⟨"Hi.", none, none, some 0, 1⟩]
        = synthesize_wav_endpoint ⟨[], fun _ => [], fun _ => "", fun _ _ _ => []⟩
            [⟨"Hi.", none, none, some 0, 1⟩] := by
  have h := C5_exactly_one_voice_validation "af_sky" [⟨"am_adam", 1⟩]
    [⟨"Hi.", none, none, some 0, 1⟩]
    "Each line must have voice or blend_components, not both."
  have hpr : parse_request [(⟨"Hi.", none, none, some 0, 1⟩ : RawLine)]
      = Except.error "Each line must have voice or blend_components, not both." := rfl
  exact ⟨h.2.2.1 (by decide), h.2.1 (by decide) (by simp),
    (h.2.2.2.2 hpr).2 envDemo, (h.2.2.2.2 hpr).1 envDemo _⟩

/-- C9: the validator judges the presence of `voice` and
`blend_components` by Python truthiness, not by field presence: an empty
string or empty list counts as absent.  A nonempty voice with an empty
blend list passes; an empty-string voice with no blend is rejected. -/
theorem C9_truthiness_validation (v : String) (bs : List VoiceComponent) :
    check_voice_or_blend (some "") none = false
    ∧ (v ≠ "" → check_voice_or_blend (some v) (some []) = true)
    ∧ check_voice_or_blend (some "") (some bs)
        = check_voice_or_blend none (some bs)
    ∧ check_voice_or_blend (some v) (some [])
        = check_voice_or_blend (some v) none := by
  refine ⟨rfl, ?_, rfl, rfl⟩
  intro hv
  simp [check_voice_or_blend, truthyStr, truthyList, hv]

/-- C9 witness at concrete inputs. -/
theorem C9_truthiness_validation_witness :
    check_voice_or_blend (some "af_sky") (some []) = true
    ∧ check_voice_or_blend (some "") none = false
    ∧ check_voice_or_blend (some "") (some [⟨"am_adam", 1⟩])
        = check_voice_or_blend none (some [⟨"am_adam", 1⟩]) := by
  have h := C9_truthiness_validation "af_sky" [⟨"am_adam", 1⟩]
  exact ⟨h.2.1 (by decide), h.1, h.2.2.1⟩

/-- C2 counterexample: a line whose voice is unknown and whose delay is 1
second contributes nothing at all — in particular not its delay silence
(which would be 24000 zero samples, a nonempty chunk) — on either path.
This contradicts the claim that such a line still emits its delaySeconds
of silence: the `continue` on an unresolved line runs before the delay is
emitted. -/
theorem C2_unresolved_line_counterexample :
    truthyDelay lineUnknownVoice.delay = true
    ∧ silence (lineUnknownVoice.delay.getD 0) ≠ []
    ∧ full_audio envDemo [lineUnknownVoice] = []
    ∧ consumer_output (producer_items envDemo [lineUnknownVoice]) = [] := by
  refine ⟨by decide, ?_, by decide, by decide⟩
  intro hnil
  have hlen := congrArg List.length hnil
  simp only [silence, List.length_replicate, List.length_nil] at hlen
  have h24 : ⌊(lineUnknownVoice.delay.getD 0) * ((SAMPLE_RATE : ℕ) : ℚ)⌋ = 24000 := by
    norm_num [SAMPLE_RATE, lineUnknownVoice]
  rw [h24] at hlen
  norm_num at hlen

/-- C2 amended: a line with neither a resolvable voice nor a resolvable
blend contributes nothing at all on both paths — no delay silence, no
content audio, and no error (the functions are total): it is skipped
entirely. -/
theorem C2_unresolved_line_amended (env : Env) (line : DialogueLine)
    (h : resolve_line env line = none) :
    line_audio env line = []
    ∧ line_stream_block env line = []
    ∧ generate_full_audio env [line] = []
    ∧ synthesize_wav env [line] = []
    ∧ producer_items env [line] = [StreamItem.sentinel]
    ∧ consumer_output (producer_items env [line]) = [] := by
  have h1 : line_audio env line = [] := by
    unfold line_audio
    rw [h]
  have h2 : line_stream_block env line = [] := by
    unfold line_stream_block
    rw [h]
  have h3 : generate_full_audio env [line] = [] := by
    simp [generate_full_audio, h1]
  have h5 : producer_items env [line] = [StreamItem.sentinel] := by
    rw [producer_items_cons, h2]
    rfl
  refine ⟨h1, h2, h3, ?_, h5, ?_⟩
  · simp [synthesize_wav, full_audio, h3]
  · rw [h5]
    rfl

/-- C2 amended witness: the unknown-voice line of the counterexample
environment is skipped entirely. -/
theorem C2_unresolved_line_amended_witness :
    line_audio envDemo lineUnknownVoice = []
    ∧ line_stream_block envDemo lineUnknownVoice = []
    ∧ synthesize_wav envDemo [lineUnknownVoice] = [] := by
  have h := C2_unresolved_line_amended envDemo lineUnknownVoice (by decide)
  exact ⟨h.1, h.2.1, h.2.2.2.1⟩

/-- C6 counterexample: for a script whose single line has delay 1 s but an
unknown voice, the producer enqueues only the sentinel — no silence unit —
although delaySeconds > 0, contradicting "delay-silence unit present iff
delaySeconds > 0". -/
theorem C6_stream_order_counterexample :
    truthyDelay lineUnknownVoice.delay = true
    ∧ producer_items envDemo [lineUnknownVoice] = [StreamItem.sentinel] := by
  exact ⟨by decide, by decide⟩

/-- C6 amended: the stream delivers exactly the per-line unit blocks in
script declaration order (no reordering); within a line's block the delay
silence comes first and is present iff the line resolves **and** its delay
is positive; the producer's last queue item is the sentinel, on which the
consumer terminates. -/
theorem C6_stream_order_amended (env : Env) (script : List DialogueLine) :
    consumer_output (producer_items env script)
      = (script.map (line_stream_block env)).flatten
    ∧ (producer_items env script).getLast? = some StreamItem.sentinel
    ∧ ∀ line : DialogueLine,
        line_stream_block env line
          = (if ((resolve_line env line).isSome ∧ truthyDelay line.delay = true)
             then [silence (line.delay.getD 0)] else [])
            ++ (match resolve_line env line with
                | none => []
                | some vs => line_content_units env vs line) := by
  refine ⟨?_, producer_items_getLast env script, ?_⟩
  · induction script with
    | nil => rfl
    | cons line rest ih =>
      rw [producer_items_cons, consumer_output_map_samples, ih]
      simp
  · intro line
    cases h : resolve_line env line with
    | none =>
      simp only [line_stream_block, h, Option.isSome_none]
      simp
    | some vs =>
      simp only [line_stream_block, h, Option.isSome_some]
      by_cases hd : truthyDelay line.delay = true
      · simp [hd]
      · simp [hd]

/-- C10: a resolved line whose text phonemizes empty produces only its
delay silence on the batch path; on the streaming path, segments that
phonemize empty are dropped (the content units are exactly one synthesized
chunk per sentence with nonempty phonemes), and if every segment
phonemizes empty only the delay silence remains.  No error is raised: all
functions are total. -/
theorem C10_empty_phonemes (env : Env) (line : DialogueLine)
    (vs : VoiceOrStyle) (hres : resolve_line env line = some vs) :
    (env.phonemize line.text = "" →
      line_audio env line
        = if truthyDelay line.delay then [silence (line.delay.getD 0)] else [])
    ∧ ((∀ s ∈ sentences line.text, env.phonemize s = "") →
        line_stream_block env line
          = if truthyDelay line.delay then [silence (line.delay.getD 0)] else [])
    ∧ line_content_units env vs line
        = ((sentences line.text).filter (fun s => env.phonemize s != "")).map
            (fun s => env.create (env.phonemize s) vs line.speed) := by
  refine ⟨?_, ?_, ?_⟩
  · intro htext
    unfold line_audio
    rw [hres]
    simp [htext]
  · intro hall
    have hcu : line_content_units env vs line = [] := by
      unfold line_content_units
      apply List.filterMap_eq_nil_iff.mpr
      intro s hs
      simp [hall s hs]
    simp [line_stream_block, hres, hcu]
  · unfold line_content_units
    exact filterMap_phoneme env vs line.speed (sentences line.text)

/-- C10 witness: a backend whose phonemizer always returns the empty
sequence; a known-voice line with delay 1 s yields only its silence chunk
on both paths. -/
theorem C10_empty_phonemes_witness :
    line_audio ⟨["af_sky"], fun _ => List.replicate STYLE_DIM 1, fun _ => "",
        fun _ _ _ => [1]⟩ ⟨"Hi.", some "af_sky", none, some 1, 1⟩
      = [silence 1]
    ∧ line_stream_block ⟨["af_sky"], fun _ => List.replicate STYLE_DIM 1, fun _ => "",
        fun _ _ _ => [1]⟩ ⟨"Hi.", some "af_sky", none, some 1, 1⟩
      = [silence 1] := by
  have h := C10_empty_phonemes
    ⟨["af_sky"], fun _ => List.replicate STYLE_DIM 1, fun _ => "", fun _ _ _ => [1]⟩
    ⟨"Hi.", some "af_sky", none, some 1, 1⟩
    (VoiceOrStyle.name "af_sky") (by decide)
  have h1 := h.1 rfl
  have h2 := h.2.1 (by intro s hs; rfl)
  have hd : truthyDelay (some (1 : ℚ)) = true := by decide
  rw [hd] at h1 h2
  exact ⟨by simpa using h1, by simpa using h2⟩

/-- The two-component blend used to separate the code's denominator from
the specification's: one known voice and one unknown voice, both with
weight 1/2. -/
def blendDemo : List VoiceComponent := [⟨"af_sky", 1 / 2⟩, ⟨"bad_voice", 1 / 2⟩]

/-- A dialogue line carrying `blendDemo`. -/
def lineBlendDemo : DialogueLine := ⟨"Hi.", none, some blendDemo, some 0, 1⟩

theorem vsum_all_zero (l : List (List ℚ)) (h : ∀ v ∈ l, v = vecZero) :
    vsum l = vecZero := by
  induction l with
  | nil => rfl
  | cons v vs ih =>
    rw [vsum_cons, h v (by simp), ih (fun w hw => h w (by simp [hw]))]
    exact vecAdd_vecZero_right vecZero (le_of_eq vecZero_length)

/-- C1 counterexample: with one known voice (constant-one embedding,
weight 1/2) and one unknown voice (weight 1/2), the code divides by the
total weight 1 and returns the constant-1/2 vector, while the claimed
formula divides by the applied weight 1/2 and returns the constant-one
vector.  The two disagree. -/
theorem C1_blend_denominator_counterexample :
    resolve_blend envDemo blendDemo = List.replicate STYLE_DIM ((1 : ℚ) / 2)
    ∧ resolve_blend_claimed envDemo blendDemo = List.replicate STYLE_DIM (1 : ℚ)
    ∧ resolve_blend envDemo blendDemo ≠ resolve_blend_claimed envDemo blendDemo := by
  have hlen : ∀ v, (envDemo.get_voice_style v).length = STYLE_DIM := by
    intro v
    simp [envDemo]
  have hm1 : (("af_sky" : String) ∈ envDemo.voices) := by decide
  have hm2 : ¬ (("bad_voice" : String) ∈ envDemo.voices) := by decide
  have hknown : blendDemo.filter (fun c => decide (c.voice ∈ envDemo.voices))
      = [⟨"af_sky", 1 / 2⟩] := by
    simp [blendDemo, hm1, hm2]
  have hnum : vsum (([⟨"af_sky", (1 : ℚ) / 2⟩] : List VoiceComponent).map
      (fun c => vecSmul (envDemo.get_voice_style c.voice) c.weight))
      = List.replicate STYLE_DIM ((1 : ℚ) * (1 / 2)) := by
    simp only [List.map_cons, List.map_nil, vsum_cons, vsum_nil]
    rw [show envDemo.get_voice_style "af_sky" = List.replicate STYLE_DIM 1 from rfl]
    rw [show vecSmul (List.replicate STYLE_DIM (1 : ℚ)) (1 / 2)
        = List.replicate STYLE_DIM ((1 : ℚ) * (1 / 2)) by
      simp [vecSmul, List.map_replicate]]
    exact vecAdd_vecZero_right _ (by simp)
  have htot : ((blendDemo.map (fun c => c.weight)).sum : ℚ) = 1 := by
    simp [blendDemo]
    norm_num
  have hamended : resolve_blend_amended envDemo blendDemo
      = List.replicate STYLE_DIM ((1 : ℚ) / 2) := by
    simp only [resolve_blend_amended]
    rw [hknown, hnum, htot]
    rw [if_pos (by norm_num : (0 : ℚ) < 1)]
    rw [vecDiv, List.map_replicate]
    exact congrArg (List.replicate STYLE_DIM) (by norm_num)
  have h1 : resolve_blend envDemo blendDemo
      = List.replicate STYLE_DIM ((1 : ℚ) / 2) := by
    rw [resolve_blend_eq_amended envDemo blendDemo hlen, hamended]
  have happ : (([⟨"af_sky", (1 : ℚ) / 2⟩] : List VoiceComponent).map
      (fun c => c.weight)).sum = (1 : ℚ) / 2 := by
    simp
  have h2 : resolve_blend_claimed envDemo blendDemo
      = List.replicate STYLE_DIM (1 : ℚ) := by
    simp only [resolve_blend_claimed]
    rw [hknown, hnum, happ]
    rw [if_pos (by norm_num : (0 : ℚ) < 1 / 2)]
    rw [vecDiv, List.map_replicate]
    exact congrArg (List.replicate STYLE_DIM) (by norm_num)
  refine ⟨h1, h2, ?_⟩
  rw [h1, h2]
  intro heq
  have := replicate_inj_of_pos (by decide : STYLE_DIM ≠ 0) heq
  norm_num at this

/-- C1 amended: for every line carrying a (truthy) blend, the resolved
embedding is the sum over known-voice components of
`embedding(voice) * weight`, divided by the sum of the weights of **all**
components (unknown-voice components are dropped from the numerator only,
not from the denominator); when that total weight is not positive there is
no division. -/
theorem C1_blend_resolution_amended (env : Env) (line : DialogueLine)
    (comps : List VoiceComponent)
    (hlen : ∀ v, (env.get_voice_style v).length = STYLE_DIM)
    (hbc : line.blend_components = some comps) (hne : comps ≠ []) :
    resolve_line env line = some (VoiceOrStyle.style (resolve_blend env comps))
    ∧ resolve_blend env comps = resolve_blend_amended env comps := by
  constructor
  · have ht : truthyList (some comps) = true := by
      obtain ⟨c, cs, rfl⟩ := List.exists_cons_of_ne_nil hne
      simp [truthyList]
    simp [resolve_line, hbc, ht]
  · exact resolve_blend_eq_amended env comps hlen

/-- C1 amended witness at the counterexample blend. -/
theorem C1_blend_resolution_amended_witness :
    resolve_line envDemo lineBlendDemo
      = some (VoiceOrStyle.style (resolve_blend envDemo blendDemo))
    ∧ resolve_blend envDemo blendDemo = resolve_blend_amended envDemo blendDemo :=
  C1_blend_resolution_amended envDemo lineBlendDemo blendDemo
    (fun v => by simp [envDemo]) rfl (by simp [blendDemo])

/-- A blend whose two component voices are both unknown to the backend. -/
def blendUnknown : List VoiceComponent := [⟨"ghost", 1 / 2⟩, ⟨"phantom", 1 / 2⟩]

/-- A dialogue line carrying `blendUnknown`. -/
def lineAllUnknown : DialogueLine := ⟨"Hi.", none, some blendUnknown, some 0, 1⟩

/-- C8: whenever the applied-weight sum (over known-voice components) is
zero — in particular for a blend whose voices are all unknown — the blend
resolves to the zero vector rather than an error, the line counts as
resolved (not skipped), and synthesis is attempted on the zero vector. -/
theorem C8_zero_weight_blend (env : Env) (line : DialogueLine)
    (comps : List VoiceComponent)
    (hlen : ∀ v, (env.get_voice_style v).length = STYLE_DIM)
    (hw : ∀ c ∈ comps, 0 ≤ c.weight)
    (happ : ((comps.filter (fun c => decide (c.voice ∈ env.voices))).map
        (fun c => c.weight)).sum = 0)
    (hbc : line.blend_components = some comps) (hne : comps ≠ []) :
    resolve_blend env comps = vecZero
    ∧ resolve_line env line = some (VoiceOrStyle.style vecZero)
    ∧ (env.phonemize line.text ≠ "" →
        line_audio env line
          = (if truthyDelay line.delay then [silence (line.delay.getD 0)] else [])
            ++ [env.create (env.phonemize line.text) (VoiceOrStyle.style vecZero)
                  line.speed]) := by
  have hz : resolve_blend env comps = vecZero := by
    rw [resolve_blend_eq_amended env comps hlen]
    simp only [resolve_blend_amended]
    have hnum : vsum ((comps.filter (fun c => decide (c.voice ∈ env.voices))).map
        (fun c => vecSmul (env.get_voice_style c.voice) c.weight)) = vecZero := by
      apply vsum_all_zero
      intro v hv
      simp only [List.mem_map] at hv
      obtain ⟨c, hc, rfl⟩ := hv
      have hcw : c.weight = 0 := by
        refine sum_eq_zero_all_zero _ ?_ happ c.weight (List.mem_map_of_mem _ hc)
        intro x hx
        simp only [List.mem_map] at hx
        obtain ⟨d, hd, rfl⟩ := hx
        exact hw d (List.mem_of_mem_filter hd)
      rw [hcw, vecSmul_zero, hlen]
      rfl
    rw [hnum]
    split
    · exact vecDiv_vecZero _
    · rfl
  have h2 : resolve_line env line = some (VoiceOrStyle.style vecZero) := by
    have ht : truthyList (some comps) = true := by
      obtain ⟨c, cs, rfl⟩ := List.exists_cons_of_ne_nil hne
      simp [truthyList]
    simp [resolve_line, hbc, ht, hz]
  refine ⟨hz, h2, ?_⟩
  intro hph
  simp [line_audio, h2, hph]

/-- C8 witness: the all-unknown blend resolves to the zero vector and the
carrying line is treated as resolved. -/
theorem C8_zero_weight_blend_witness :
    resolve_blend envDemo blendUnknown = vecZero
    ∧ resolve_line envDemo lineAllUnknown = some (VoiceOrStyle.style vecZero) := by
  have h := C8_zero_weight_blend envDemo lineAllUnknown blendUnknown
    (fun v => by simp [envDemo])
    (by
      intro c hc
      simp [blendUnknown] at hc
      rcases hc with rfl | rfl <;> norm_num)
    (by simp [blendUnknown, envDemo])
    rfl (by simp [blendUnknown])
  exact ⟨h.1, h.2.1⟩

/-- A single-sentence line with the known voice and no delay. -/
def lineHi : DialogueLine := ⟨"Hi.", some "af_sky", none, some 0, 1⟩

/-- A second single-sentence line with the known voice and no delay. -/
def lineBye : DialogueLine := ⟨"Bye.", some "af_sky", none, some 0, 1⟩

/-- C4: the batch assembler concatenates every produced chunk (delay
silence and content, in line order) into one buffer; an empty buffer
yields an empty artifact rather than an error; and when the peak absolute
sample value is positive, every sample is divided by it and the resulting
peak absolute amplitude is exactly 1. -/
theorem C4_peak_normalization (env : Env) (script : List DialogueLine) :
    full_audio env script = ((script.map (line_audio env)).flatten).flatten
    ∧ (full_audio env script = [] → synthesize_wav env script = [])
    ∧ (0 < peakAbs (full_audio env script) →
        synthesize_wav env script
          = (full_audio env script).map
              (fun x => x / peakAbs (full_audio env script))
        ∧ peakAbs (synthesize_wav env script) = 1) := by
  refine ⟨?_, ?_, ?_⟩
  · rw [full_audio, generate_full_audio_eq_flatten]
  · intro h
    simp [synthesize_wav, h]
  · intro hpk
    have hne : full_audio env script ≠ [] := by
      intro h
      rw [h] at hpk
      simp [peakAbs] at hpk
    have hmap : synthesize_wav env script
        = (full_audio env script).map
            (fun x => x / peakAbs (full_audio env script)) := by
      simp only [synthesize_wav]
      rw [if_neg hne, if_pos hpk]
    refine ⟨hmap, ?_⟩
    rw [hmap, peakAbs_map_div _ _ hpk]
    exact div_self (ne_of_gt hpk)

/-- C4 witness: a one-line script synthesizing the chunk `[1]`: the peak
is 1 > 0, the output is the normalized buffer with peak exactly 1, and the
empty script yields the empty artifact. -/
theorem C4_peak_normalization_witness :
    0 < peakAbs (full_audio envDemo [lineHi])
    ∧ synthesize_wav envDemo [lineHi]
        = (full_audio envDemo [lineHi]).map
            (fun x => x / peakAbs (full_audio envDemo [lineHi]))
    ∧ peakAbs (synthesize_wav envDemo [lineHi]) = 1
    ∧ synthesize_wav envDemo ([] : List DialogueLine) = [] := by
  have hfull : full_audio envDemo [lineHi] = [1] := by decide
  have hpk : 0 < peakAbs (full_audio envDemo [lineHi]) := by
    rw [hfull]
    norm_num [peakAbs]
  have h := (C4_peak_normalization envDemo [lineHi]).2.2 hpk
  exact ⟨hpk, h.1, h.2, (C4_peak_normalization envDemo []).2.1 rfl⟩

/-- C3: for every nonempty benchmark result list whose entries are the
declared candidates, `print_recommendations` selects: `fastest` = the
first result attaining the minimal real-time factor (every strictly
earlier result has strictly larger rtf, i.e. ties break by declaration
order); `highest_quality` = the first full-precision-tagged candidate if
one is present; `best_balanced` = the first half-precision-tagged
candidate if present, else `fastest`. -/
theorem C3_benchmark_selection (results : List BenchResult)
    (hne : results ≠ [])
    (hnames : ∀ r ∈ results, r.name ∈ candidate_names) :
    ∃ rec : Recommendations,
      print_recommendations results = some rec
      ∧ (∃ l₁ l₂, results = l₁ ++ rec.fastest :: l₂
          ∧ (∀ s ∈ results, rec.fastest.rtf ≤ s.rtf)
          ∧ (∀ s ∈ l₁, rec.fastest.rtf < s.rtf))
      ∧ rec.highest_quality
          = results.find? (fun r => r.name == FULL_PRECISION_NAME)
      ∧ rec.best_balanced
          = (results.find? (fun r => r.name == HALF_PRECISION_NAME)).getD
              rec.fastest := by
  match results, hne with
  | x :: xs, _ =>
    refine ⟨_, rfl, ?_, ?_, ?_⟩
    · exact pymin_fold_spec xs x
    · exact find_congr _ _ (x :: xs)
        (fun a ha => hq_name_iff a.name (hnames a ha))
    · exact congrArg (fun o => Option.getD o _)
        (find_congr _ _ (x :: xs)
          (fun a ha => fp16_name_iff a.name (hnames a ha)))

/-- The three benchmark entries of the specification's selection test:
full-precision with rtf 0.9, half-precision with rtf 0.5, quantized with
rtf 0.4 (other measurements irrelevant to selection). -/
def benchFP32 : BenchResult := ⟨FULL_PRECISION_NAME, 0, 0, 0, 0, 9 / 10, 0⟩

def benchFP16 : BenchResult := ⟨HALF_PRECISION_NAME, 0, 0, 0, 0, 1 / 2, 0⟩

def benchINT8 : BenchResult := ⟨QUANTIZED_NAME, 0, 0, 0, 0, 2 / 5, 0⟩

def benchResultsDemo : List BenchResult := [benchFP32, benchFP16, benchINT8]

/-- C3 witness: the selection policy applied to the 0.9/0.5/0.4 scenario;
additionally the concrete selections: fastest = quantized,
highest quality = full precision, best balanced = half precision. -/
theorem C3_benchmark_selection_witness :
    (∃ rec : Recommendations,
      print_recommendations benchResultsDemo = some rec
      ∧ (∃ l₁ l₂, benchResultsDemo = l₁ ++ rec.fastest :: l₂
          ∧ (∀ s ∈ benchResultsDemo, rec.fastest.rtf ≤ s.rtf)
          ∧ (∀ s ∈ l₁, rec.fastest.rtf < s.rtf))
      ∧ rec.highest_quality
          = benchResultsDemo.find? (fun r => r.name == FULL_PRECISION_NAME)
      ∧ rec.best_balanced
          = (benchResultsDemo.find? (fun r => r.name == HALF_PRECISION_NAME)).getD
              rec.fastest)
    ∧ print_recommendations benchResultsDemo
        = some ⟨benchINT8, some benchFP32, benchFP16⟩ := by
  constructor
  · exact C3_benchmark_selection benchResultsDemo (by simp [benchResultsDemo])
      (by
        intro r hr
        simp only [benchResultsDemo, List.mem_cons, List.not_mem_nil, or_false] at hr
        rcases hr with rfl | rfl | rfl <;>
          simp [benchFP32, benchFP16, benchINT8, candidate_names])
  · have hfold : ([benchFP16, benchINT8] : List BenchResult).foldl
        (fun best y => if y.rtf < best.rtf then y else best) benchFP32
          = benchINT8 := by
      simp only [List.foldl_cons, List.foldl_nil]
      rw [if_pos (show benchFP16.rtf < benchFP32.rtf by
            norm_num [benchFP16, benchFP32]),
        if_pos (show benchINT8.rtf < benchFP16.rtf by
            norm_num [benchINT8, benchFP16])]
    have hq : ([benchFP32, benchFP16, benchINT8] : List BenchResult).find?
        (fun r => is_highest_quality_name r.name) = some benchFP32 :=
      List.find?_cons_of_pos _ (by decide)
    have hb : ([benchFP32, benchFP16, benchINT8] : List BenchResult).find?
        (fun r => strEndsWith r.name "fp16.onnx") = some benchFP16 := by
      rw [List.find?_cons_of_neg _ (by decide), List.find?_cons_of_pos _ (by decide)]
    show print_recommendations [benchFP32, benchFP16, benchINT8] = _
    simp only [print_recommendations, pymin_rtf, hfold, hq, hb, Option.getD_some]

/-- C7: the streaming consumer (`stream_generator`) starts the producer
with a fire-and-forget `asyncio.create_task` and no code path ever cancels
it, so the inference calls the producer performs are independent of any
client disconnection: for the two-line script, delivering the first chunk
requires one `create` call, yet the producer performs two — one further
inference call happens even if the stream is cancelled after the first
unit (the queue capacity of 20 never blocks a two-chunk run). -/
theorem C7_producer_calls_after_disconnect :
    producer_calls envDemo [lineHi, lineBye] = 2
    ∧ producer_calls envDemo [lineHi] = 1
    ∧ (consumer_output (producer_items envDemo [lineHi, lineBye])).length = 2 := by
  refine ⟨by decide, by decide, by decide⟩
